import Mathlib

/-!
Verification of the gomvc scaffolding tool (src/gomvc.go).

The filesystem is modelled as an association list from absolute paths
(lists of path components) to nodes.  A node is either a directory
(carrying the permission bits that the Go code can observe through
`os.Stat` / `os.Mkdir` failures: search/traverse permission and write
permission) or a regular file with its byte content.  Directories
created by the tool itself use `os.ModePerm` and are therefore fully
accessible (`search := true`, `write := true`).

`os.Stat` is modelled by `statFS`: it reports `statErr` (an error on
which `os.IsNotExist` is false, e.g. `EACCES` or `ENOTDIR`) whenever a
proper prefix of the path is a regular file or a directory without
search permission; otherwise it reports the node found at the path or
`notExist` (`ENOENT`).

Permission faults are modelled on the creation path (`os.Stat`,
`os.MkdirAll`, `os.Create`), where the claims depend on them; the
removal operations (`os.RemoveAll`, `os.Remove`) are modelled on
accessible trees and do not take permission faults into account.
-/

set_option autoImplicit false
set_option maxRecDepth 8000

namespace Gomvc

/-- A filesystem path, as a list of components (`filepath.Join` output). -/
abbrev Path : Type := List String

/-- Permission bits of a pre-existing directory that the Go code can
observe: `search` (traverse into the directory) and `write` (create or
remove entries inside it). -/
structure Perm where
  search : Bool
  write : Bool
deriving DecidableEq, Repr

/-- A filesystem node: a directory with its permissions, or a regular
file with its content. -/
inductive Node where
  | dir (perm : Perm)
  | file (content : String)
deriving DecidableEq, Repr

/-- The filesystem: an association list from paths to nodes (first
match wins). -/
abbrev FS : Type := List (Path × Node)

/-- Errors returned by the modelled operations.  `modInitFailed`
models the wrapping `fmt.Errorf("failed to initialize go module: %v", err)`
and `deleteGoModFailed` the wrapping
`fmt.Errorf("failed to delete go.mod: %v", err)` in src/gomvc.go. -/
inductive Err where
  | accessDenied (p : Path)
  | notDirectory (p : Path)
  | alreadyExists (p : Path)
  | notFound (p : Path)
  | notEmpty (p : Path)
  | modInitFailed (e : Err)
  | deleteGoModFailed (e : Err)
deriving DecidableEq, Repr

/-- Look up the node stored at a path. -/
def fsFind : FS → Path → Option Node
  | [], _ => none
  | (q, n) :: fs, p => if p = q then some n else fsFind fs p

/-- All proper prefixes of a path (including the filesystem root `[]`). -/
def properPrefixes (p : Path) : List Path :=
  (List.range p.length).map fun i => p.take i

/-- Whether a node found at a proper prefix of a path makes `stat` of
that path fail with an error other than `ENOENT`: a regular file in the
middle of the path (`ENOTDIR`) or a directory without search
permission (`EACCES`).  `os.IsNotExist` is false on both. -/
def nodeBlocks : Option Node → Bool
  | some (.file _) => true
  | some (.dir pm) => !pm.search
  | none => false

/-- Result of `os.Stat`: success with the node, `ENOENT`
(`os.IsNotExist` true), or any other error (`os.IsNotExist` false). -/
inductive StatRes where
  | found (n : Node)
  | notExist
  | statErr
deriving DecidableEq, Repr

/-- Model of `os.Stat`. -/
def statFS (fs : FS) (p : Path) : StatRes :=
  if (properPrefixes p).any (fun q => nodeBlocks (fsFind fs q)) then .statErr
  else
    match fsFind fs p with
    | some n => .found n
    | none => .notExist

/-- Helper for `mkdirAll`: walk the remaining components, descending
into existing directories and creating the missing ones.  `canWrite`
is the write permission of the directory named by `pre` (the
filesystem root `[]` is always writable).  Directories created here get
`os.ModePerm`, i.e. full permissions. -/
def mkdirAllAux (fs : FS) (pre : Path) (canWrite : Bool) : List String → FS × Option Err
  | [] => (fs, none)
  | c :: rest =>
    match fsFind fs (pre ++ [c]) with
    | some (.dir pm) =>
      if pm.search then mkdirAllAux fs (pre ++ [c]) pm.write rest
      else (fs, some (.accessDenied (pre ++ [c])))
    | some (.file _) => (fs, some (.notDirectory (pre ++ [c])))
    | none =>
      if canWrite then
        mkdirAllAux ((pre ++ [c], Node.dir ⟨true, true⟩) :: fs) (pre ++ [c]) true rest
      else (fs, some (.accessDenied (pre ++ [c])))

/-- Model of `os.MkdirAll(path, os.ModePerm)`. -/
def mkdirAll (fs : FS) (p : Path) : FS × Option Err :=
  mkdirAllAux fs [] true p

/-- Model of `createDir` (src/gomvc.go lines 19-24): probe with
`os.Stat`; only when the probe reports not-exist is `os.MkdirAll`
called; on any other probe outcome (success, `EACCES`, `ENOTDIR`)
return `nil` without touching the filesystem. -/
def createDir (fs : FS) (p : Path) : FS × Option Err :=
  match statFS fs p with
  | .notExist => mkdirAll fs p
  | _ => (fs, none)

/-- Write permission of the parent directory of `p`, as observed by
`os.Create`: the parent must exist as a writable directory (the
filesystem root `[]` is always writable). -/
def parentWritable (fs : FS) (p : Path) : Bool :=
  if p.dropLast = [] then true
  else
    match fsFind fs p.dropLast with
    | some (.dir pm) => pm.write
    | _ => false

/-- Model of `createFile` (src/gomvc.go lines 26-38): probe with
`os.Stat`; only when the probe reports not-exist are
`os.Create`/`WriteString` invoked; on any other probe outcome return
`nil` without touching the filesystem. -/
def createFile (fs : FS) (p : Path) (content : String) : FS × Option Err :=
  match statFS fs p with
  | .notExist =>
    if parentWritable fs p then ((p, Node.file content) :: fs, none)
    else (fs, some (.accessDenied p))
  | _ => (fs, none)

/-- Sequencing with early return on error, mirroring
`if err := ...; err != nil { return err }`. -/
def andThen (r : FS × Option Err) (k : FS → FS × Option Err) : FS × Option Err :=
  match r with
  | (fs, some e) => (fs, some e)
  | (fs, none) => k fs

/-- The `for _, dir := range dirs` loop of `setupMVC`. -/
def createDirs (fs : FS) : List Path → FS × Option Err
  | [] => (fs, none)
  | d :: ds => andThen (createDir fs d) fun fs1 => createDirs fs1 ds

/-- The eight relative directory paths of `setupMVC`, rooted at
`rootPath` (`filepath.Join(rootPath, "cmd/api")` and so on). -/
def dirsList (rootPath : Path) : List Path :=
  [rootPath ++ ["cmd", "api"], rootPath ++ ["controller"], rootPath ++ ["models"],
   rootPath ++ ["pkg"], rootPath ++ ["config"], rootPath ++ ["views"],
   rootPath ++ ["router"], rootPath ++ ["middleware"]]

/-- `mainGoContent` up to the `%s` substitution point. -/
def mainGoPre : String :=
  "package main\n\nimport (\n\t\"fmt\"\n\t\"github.com/gin-gonic/gin\"\n\t\""

/-- `mainGoContent` after the `%s` substitution point. -/
def mainGoPost : String :=
  "/router\"\n)\n\nfunc main() \x7b\n\tfmt.Println(\"Starting the Gin server...\")\n\tr := gin.Default()\n\trouter.InitializeRoutes(r)\n\tr.Run(\":8080\")\n\x7d\n"

/-- The rendered entry-point template (`fmt.Sprintf` with one `%s`). -/
def mainGoContent (projectName : String) : String :=
  mainGoPre ++ projectName ++ mainGoPost

/-- The controller template (no substitution point). -/
def controllerContent : String :=
  "package controller\n\nimport (\n\t\"net/http\"\n\t\"github.com/gin-gonic/gin\"\n)\n\n// HomeController handles requests for the home route\nfunc HomeController(c *gin.Context) \x7b\n\tc.JSON(http.StatusOK, gin.H\x7b\"message\": \"Hello from HomeController!\"\x7d)\n\x7d\n"

/-- The model template (no substitution point). -/
def modelContent : String :=
  "package models\n\n// User represents a sample user model\ntype User struct \x7b\n\tID    int    \x60json:\"id\"\x60\n\tName  string \x60json:\"name\"\x60\n\tEmail string \x60json:\"email\"\x60\n\x7d\n"

/-- The utility template (no substitution point). -/
def pkgContent : String :=
  "package pkg\n\nimport \"fmt\"\n\n// PrintMessage prints a message to the console\nfunc PrintMessage(msg string) \x7b\n\tfmt.Println(msg)\n\x7d\n"

/-- `routerContent` up to the first `%s` substitution point. -/
def routerPre : String :=
  "package router\n\nimport (\n\t\"github.com/gin-gonic/gin\"\n\t\""

/-- `routerContent` between the two `%s` substitution points. -/
def routerMid : String :=
  "/controller\"\n\t\""

/-- `routerContent` after the second `%s` substitution point. -/
def routerPost : String :=
  "/middleware\"\n)\n\n// InitializeRoutes sets up the application\x27s routes\nfunc InitializeRoutes(r *gin.Engine) \x7b\n\tr.Use(middleware.RequestLogger())\n\n\tr.GET(\"/\", controller.HomeController)\n\x7d\n"

/-- The rendered router template (`fmt.Sprintf` with two `%s`). -/
def routerContent (projectName : String) : String :=
  routerPre ++ projectName ++ routerMid ++ projectName ++ routerPost

/-- The middleware template (no substitution point). -/
def middlewareContent : String :=
  "package middleware\n\nimport (\n\t\"fmt\"\n\t\"time\"\n\n\t\"github.com/gin-gonic/gin\"\n)\n\n// RequestLogger logs each request with method, path, and duration\nfunc RequestLogger() gin.HandlerFunc \x7b\n\treturn func(c *gin.Context) \x7b\n\t\tstartTime := time.Now()\n\t\tc.Next()\n\t\tduration := time.Since(startTime)\n\t\tfmt.Printf(\"[%s] %s %s %v\\n\", time.Now().Format(time.RFC3339), c.Request.Method, c.Request.URL.Path, duration)\n\t\x7d\n\x7d\n"

/-- The directory-creation and file-creation part of `setupMVC`
(everything after the module-initialization step), translated
statement by statement from src/gomvc.go lines 58-184. -/
def setupRest (rootPath : Path) (projectName : String) (fs : FS) : FS × Option Err :=
  andThen (createDirs fs (dirsList rootPath)) fun fs1 =>
  andThen (createFile fs1 (rootPath ++ ["cmd", "api", "main.go"]) (mainGoContent projectName)) fun fs2 =>
  andThen (createFile fs2 (rootPath ++ ["controller", "home_controller.go"]) controllerContent) fun fs3 =>
  andThen (createFile fs3 (rootPath ++ ["models", "user.go"]) modelContent) fun fs4 =>
  andThen (createFile fs4 (rootPath ++ ["pkg", "utility.go"]) pkgContent) fun fs5 =>
  andThen (createFile fs5 (rootPath ++ ["router", "router.go"]) (routerContent projectName)) fun fs6 =>
  createFile fs6 (rootPath ++ ["middleware", "request_logger.go"]) middlewareContent

/-- Model of `setupMVC` (src/gomvc.go lines 40-185).  Reading and
trimming the project name from standard input is the excluded CLI
surface; `projectName` is the already-obtained module identifier.  The
external collaborator `exec.Command("go", "mod", "init", projectName)`
with `cmd.Dir = rootPath` is passed in as the function `goModInit`; a
failure of that step is wrapped and returned before any directory or
file is created. -/
def setupMVC (goModInit : FS → FS × Option Err) (rootPath : Path) (projectName : String)
    (fs : FS) : FS × Option Err :=
  match goModInit fs with
  | (fs1, some e) => (fs1, some (.modInitFailed e))
  | (fs1, none) => setupRest rootPath projectName fs1

/-- The content of the module manifest written by the external
initializer (only its existence matters to this development). -/
def goModContent (projectName : String) : String :=
  "module " ++ projectName ++ "\n"

/-- Modelled from the spec: the external module-initialization
collaborator (spec section 6), which is not part of this repository.
Invoked with working directory `rootPath`; it fails to launch when the
working directory is not an accessible directory (`chdir` fails), fails
when a module manifest already exists, and on success creates the
manifest `go.mod` at the root and exits with status zero. -/
def goModInitModel (rootPath : Path) (projectName : String) (fs : FS) : FS × Option Err :=
  match statFS fs rootPath with
  | .found (.dir pm) =>
    if pm.search && pm.write then
      match fsFind fs (rootPath ++ ["go.mod"]) with
      | none => ((rootPath ++ ["go.mod"], Node.file (goModContent projectName)) :: fs, none)
      | some _ => (fs, some (.alreadyExists (rootPath ++ ["go.mod"])))
    else (fs, some (.accessDenied rootPath))
  | _ => (fs, some (.notFound rootPath))

/-- Model of `os.RemoveAll`: removes the path and everything under it;
a path that does not exist is not an error.  Removal is modelled on
accessible trees (permission faults are modelled on the creation path
only, see the file header). -/
def removeAll (fs : FS) (p : Path) : FS × Option Err :=
  (fs.filter (fun e => !(p.isPrefixOf e.1)), none)

/-- Whether a directory has an entry strictly below it. -/
def hasChildEntry (fs : FS) (p : Path) : Bool :=
  fs.any fun e => p.isPrefixOf e.1 && !(e.1 == p)

/-- Model of `os.Remove`: removes a file or an empty directory; fails
on a missing path or a non-empty directory. -/
def osRemove (fs : FS) (p : Path) : FS × Option Err :=
  match fsFind fs p with
  | some (.file _) => (fs.filter (fun e => !(e.1 == p)), none)
  | some (.dir _) =>
    if hasChildEntry fs p then (fs, some (.notEmpty p))
    else (fs.filter (fun e => !(e.1 == p)), none)
  | none => (fs, some (.notFound p))

/-- The eight fixed top-level names removed by `deleteMVC`. -/
def fixedNames : List String :=
  ["cmd", "controller", "models", "pkg", "config", "views", "router", "middleware"]

/-- The `for _, dir := range dirs` loop of `deleteMVC`. -/
def removeAllLoop (fs : FS) : List Path → FS × Option Err
  | [] => (fs, none)
  | p :: ps => andThen (removeAll fs p) fun fs1 => removeAllLoop fs1 ps

/-- Model of `deleteMVC` (src/gomvc.go lines 187-206): recursively
remove the eight fixed names under `rootPath`, then remove `go.mod`
only when `os.Stat` on it succeeds (`err == nil`); a failed removal of
`go.mod` is wrapped. -/
def deleteMVC (rootPath : Path) (fs : FS) : FS × Option Err :=
  andThen (removeAllLoop fs (fixedNames.map (fun nm => rootPath ++ [nm]))) fun fs1 =>
  match statFS fs1 (rootPath ++ ["go.mod"]) with
  | .found _ =>
    (match osRemove fs1 (rootPath ++ ["go.mod"]) with
     | (fs2, some e) => (fs2, some (.deleteGoModFailed e))
     | (fs2, none) => (fs2, none))
  | _ => (fs1, none)

/-! ### Basic lemmas about `fsFind` and filtering -/

theorem fsFind_cons (k : Path) (n : Node) (fs : FS) (q : Path) :
    fsFind ((k, n) :: fs) q = if q = k then some n else fsFind fs q := rfl

theorem fsFind_eq_none (fs : FS) (q : Path) (h : ∀ e ∈ fs, e.1 ≠ q) : fsFind fs q = none := by
  induction fs with
  | nil => rfl
  | cons e fs ih =>
    obtain ⟨k, n⟩ := e
    have hk : k ≠ q := h (k, n) (List.mem_cons_self _ _)
    rw [fsFind_cons, if_neg (Ne.symm hk)]
    exact ih fun e he => h e (List.mem_cons_of_mem _ he)

theorem fsFind_isSome_of_mem (fs : FS) (e : Path × Node) (h : e ∈ fs) :
    (fsFind fs e.1).isSome := by
  induction fs with
  | nil => cases h
  | cons e' fs ih =>
    obtain ⟨k, n⟩ := e'
    by_cases hq : e.1 = k
    · rw [fsFind_cons, if_pos hq]; rfl
    · rw [fsFind_cons, if_neg hq]
      rcases List.mem_cons.mp h with h1 | h1
      · subst h1; exact absurd rfl hq
      · exact ih h1

theorem fsFind_filter_key (fs : FS) (f : Path → Bool) (q : Path) :
    fsFind (fs.filter fun e => f e.1) q = if f q then fsFind fs q else none := by
  induction fs with
  | nil => simp [fsFind]
  | cons e fs ih =>
    obtain ⟨k, n⟩ := e
    by_cases hfk : f k = true
    · rw [List.filter_cons_of_pos (by simpa using hfk)]
      by_cases hq : q = k
      · subst hq; rw [fsFind_cons, fsFind_cons, if_pos rfl, if_pos rfl, if_pos hfk]
      · rw [fsFind_cons, fsFind_cons, if_neg hq, if_neg hq, ih]
    · rw [List.filter_cons_of_neg (by simpa using hfk)]
      have hf : f k = false := by
        cases hfq : f k
        · rfl
        · exact absurd hfq hfk
      by_cases hq : q = k
      · subst hq
        rw [ih, hf]
        simp
      · rw [fsFind_cons, if_neg hq, ih]

theorem fsFind_filter_none (fs : FS) (f : Path → Bool) (q : Path) (h : fsFind fs q = none) :
    fsFind (fs.filter fun e => f e.1) q = none := by
  rw [fsFind_filter_key]
  by_cases hf : f q = true <;> simp [hf, h]

/-! ### Lemmas about `statFS` -/

theorem statFS_found_elim (fs : FS) (p : Path) (n : Node) (h : statFS fs p = .found n) :
    fsFind fs p = some n ∧ ∀ q ∈ properPrefixes p, nodeBlocks (fsFind fs q) = false := by
  unfold statFS at h
  split at h
  · cases h
  · rename_i hb
    have h2 : ∀ q ∈ properPrefixes p, nodeBlocks (fsFind fs q) = false := by
      intro q hq
      cases hnb : nodeBlocks (fsFind fs q)
      · rfl
      · exact absurd (List.any_eq_true.mpr ⟨q, hq, hnb⟩) hb
    split at h
    · rename_i n' hf
      cases h
      exact ⟨hf, h2⟩
    · cases h

theorem statFS_notExist_elim (fs : FS) (p : Path) (h : statFS fs p = .notExist) :
    fsFind fs p = none := by
  unfold statFS at h
  split at h
  · cases h
  · split at h
    · cases h
    · assumption

theorem statFS_eq_found (fs : FS) (p : Path) (n : Node) (h1 : fsFind fs p = some n)
    (h2 : ∀ q ∈ properPrefixes p, nodeBlocks (fsFind fs q) = false) :
    statFS fs p = .found n := by
  have hb : ¬ ((properPrefixes p).any fun q => nodeBlocks (fsFind fs q)) = true := by
    rw [List.any_eq_false.mpr fun q hq => by simp [h2 q hq]]
    simp
  unfold statFS
  rw [if_neg hb, h1]

theorem statFS_ne_notExist_of_some (fs : FS) (p : Path) (n : Node)
    (h : fsFind fs p = some n) : statFS fs p ≠ .notExist := by
  intro hc
  rw [statFS_notExist_elim fs p hc] at h
  cases h

/-! ### Creation operations: value-stability lemmas -/

theorem mkdirAllAux_find (cs : List String) (fs : FS) (pre : Path) (w : Bool)
    (q : Path) (v : Option Node) (hv : fsFind fs q = v)
    (hq : v.isSome = true ∨ q = [] ∨ ¬ q <+: pre ++ cs) :
    fsFind (mkdirAllAux fs pre w cs).1 q = v := by
  induction cs generalizing fs pre w with
  | nil => simpa [mkdirAllAux] using hv
  | cons c rest ih =>
    have hstep : ∀ {p' : Path}, p' = pre ++ [c] →
        (v.isSome = true ∨ q = [] ∨ ¬ q <+: p' ++ rest) := by
      rintro p' rfl
      rcases hq with h | h | h
      · exact Or.inl h
      · exact Or.inr (Or.inl h)
      · refine Or.inr (Or.inr ?_)
        rwa [List.append_assoc, List.singleton_append]
    unfold mkdirAllAux
    cases hfc : fsFind fs (pre ++ [c]) with
    | none =>
      cases w with
      | false => simpa using hv
      | true =>
        simp only
        apply ih _ _ _ _ (hstep rfl)
        rw [fsFind_cons]
        have hne : q ≠ pre ++ [c] := by
          intro he
          rcases hq with h | h | h
          · rw [he, hfc] at hv; rw [← hv] at h; cases h
          · rw [h] at he; exact List.append_ne_nil_of_right_ne_nil pre (by simp) he.symm
          · exact h (he ▸ ⟨rest, by simp⟩)
        rw [if_neg hne]; exact hv
    | some n =>
      cases n with
      | dir pm =>
        cases hs : pm.search with
        | false => simpa [hs] using hv
        | true =>
          simp only [hs]
          exact ih _ _ _ hv (hstep rfl)
      | file c' => simpa using hv

theorem createDir_find (fs : FS) (p q : Path) (v : Option Node)
    (hv : fsFind fs q = v) (hq : v.isSome = true ∨ q = [] ∨ ¬ q <+: p) :
    fsFind (createDir fs p).1 q = v := by
  unfold createDir
  cases hs : statFS fs p with
  | notExist =>
    exact mkdirAllAux_find p fs [] true q v hv (by simpa using hq)
  | found n => exact hv
  | statErr => exact hv

theorem createFile_creates (fs : FS) (p : Path) (c : String)
    (hs : statFS fs p = .notExist) (hw : parentWritable fs p = true) :
    createFile fs p c = ((p, Node.file c) :: fs, none) := by
  unfold createFile
  rw [hs, hw]
  simp

theorem createFile_find (fs : FS) (p q : Path) (c : String) (v : Option Node)
    (hv : fsFind fs q = v) (hq : v.isSome = true ∨ q ≠ p) :
    fsFind (createFile fs p c).1 q = v := by
  unfold createFile
  cases hs : statFS fs p with
  | notExist =>
    cases hw : parentWritable fs p with
    | false => simpa using hv
    | true =>
      have hne : q ≠ p := by
        rcases hq with h | h
        · intro he
          rw [he, statFS_notExist_elim fs p hs] at hv
          rw [← hv] at h; cases h
        · exact h
      simp only [hw]
      rw [if_pos trivial, fsFind_cons, if_neg hne]
      exact hv
  | found n => exact hv
  | statErr => exact hv

theorem createDirs_find (ps : List Path) (fs : FS) (q : Path) (v : Option Node)
    (hv : fsFind fs q = v)
    (hq : v.isSome = true ∨ q = [] ∨ ∀ p ∈ ps, ¬ q <+: p) :
    fsFind (createDirs fs ps).1 q = v := by
  induction ps generalizing fs with
  | nil => simpa [createDirs] using hv
  | cons p ps ih =>
    unfold createDirs
    have hhead : v.isSome = true ∨ q = [] ∨ ¬ q <+: p := by
      rcases hq with h | h | h
      · exact Or.inl h
      · exact Or.inr (Or.inl h)
      · exact Or.inr (Or.inr (h p (List.mem_cons_self _ _)))
    have htail : v.isSome = true ∨ q = [] ∨ ∀ p' ∈ ps, ¬ q <+: p' := by
      rcases hq with h | h | h
      · exact Or.inl h
      · exact Or.inr (Or.inl h)
      · exact Or.inr (Or.inr fun p' hp' => h p' (List.mem_cons_of_mem _ hp'))
    cases hc : createDir fs p with
    | mk fs1 e =>
      have h1 : fsFind fs1 q = v := by
        have := createDir_find fs p q v hv hhead
        rw [hc] at this; exact this
      cases e with
      | none => simpa [andThen] using ih fs1 h1 htail
      | some err => simpa [andThen] using h1

theorem andThen_find (r : FS × Option Err) (k : FS → FS × Option Err) (q : Path)
    (v : Option Node) (hr : fsFind r.1 q = v)
    (hk : ∀ fs', fsFind fs' q = v → fsFind (k fs').1 q = v) :
    fsFind (andThen r k).1 q = v := by
  obtain ⟨fs0, e⟩ := r
  cases e with
  | none => exact hk fs0 hr
  | some err => exact hr

/-- The six file paths written by `setupRest`, in creation order. -/
def filePaths (rootPath : Path) : List Path :=
  [rootPath ++ ["cmd", "api", "main.go"], rootPath ++ ["controller", "home_controller.go"],
   rootPath ++ ["models", "user.go"], rootPath ++ ["pkg", "utility.go"],
   rootPath ++ ["router", "router.go"], rootPath ++ ["middleware", "request_logger.go"]]

theorem setupRest_find (root : Path) (m : String) (fs : FS) (q : Path) (v : Option Node)
    (hv : fsFind fs q = v)
    (hq : v.isSome = true ∨
      (q = [] ∨ ∀ p ∈ dirsList root, ¬ q <+: p) ∧ ∀ p ∈ filePaths root, q ≠ p) :
    fsFind (setupRest root m fs).1 q = v := by
  have hdirs : v.isSome = true ∨ q = [] ∨ ∀ p ∈ dirsList root, ¬ q <+: p := by
    rcases hq with h | ⟨h, _⟩
    · exact Or.inl h
    · exact Or.inr h
  have hfile : ∀ p ∈ filePaths root, v.isSome = true ∨ q ≠ p := by
    intro p hp
    rcases hq with h | ⟨_, h⟩
    · exact Or.inl h
    · exact Or.inr (h p hp)
  unfold setupRest
  refine andThen_find _ _ _ _ (createDirs_find _ _ _ _ hv hdirs) fun fs1 h1 => ?_
  refine andThen_find _ _ _ _
    (createFile_find _ _ _ _ _ h1 (hfile _ (by simp [filePaths]))) fun fs2 h2 => ?_
  refine andThen_find _ _ _ _
    (createFile_find _ _ _ _ _ h2 (hfile _ (by simp [filePaths]))) fun fs3 h3 => ?_
  refine andThen_find _ _ _ _
    (createFile_find _ _ _ _ _ h3 (hfile _ (by simp [filePaths]))) fun fs4 h4 => ?_
  refine andThen_find _ _ _ _
    (createFile_find _ _ _ _ _ h4 (hfile _ (by simp [filePaths]))) fun fs5 h5 => ?_
  refine andThen_find _ _ _ _
    (createFile_find _ _ _ _ _ h5 (hfile _ (by simp [filePaths]))) fun fs6 h6 => ?_
  exact createFile_find _ _ _ _ _ h6 (hfile _ (by simp [filePaths]))

theorem setupMVC_find (init : FS → FS × Option Err) (root : Path) (m : String)
    (fs : FS) (q : Path) (v : Option Node)
    (hvinit : fsFind (init fs).1 q = v)
    (hq : v.isSome = true ∨
      (q = [] ∨ ∀ p ∈ dirsList root, ¬ q <+: p) ∧ ∀ p ∈ filePaths root, q ≠ p) :
    fsFind (setupMVC init root m fs).1 q = v := by
  unfold setupMVC
  cases hi : init fs with
  | mk fs1 e =>
    rw [hi] at hvinit
    cases e with
    | none => exact setupRest_find root m fs1 q v hvinit hq
    | some err => exact hvinit

/-! ### Removal operations -/

theorem removeAll_snd (fs : FS) (p : Path) : (removeAll fs p).2 = none := rfl

theorem removeAll_find (fs : FS) (p q : Path) :
    fsFind (removeAll fs p).1 q = if p <+: q then none else fsFind fs q := by
  show fsFind (fs.filter fun e => !(p.isPrefixOf e.1)) q = _
  have hk : fsFind (fs.filter fun e => !(p.isPrefixOf e.1)) q
      = if (!(p.isPrefixOf q)) = true then fsFind fs q else none :=
    fsFind_filter_key fs (fun x => !(p.isPrefixOf x)) q
  rw [hk]
  by_cases h : p <+: q
  · rw [List.isPrefixOf_iff_prefix.mpr h]
    simp [h]
  · have hb : p.isPrefixOf q = false := by
      cases hbb : p.isPrefixOf q
      · rfl
      · exact absurd (List.isPrefixOf_iff_prefix.mp hbb) h
    rw [hb]
    simp [h]

theorem removeAllLoop_cons (fs : FS) (p : Path) (ps : List Path) :
    removeAllLoop fs (p :: ps) = removeAllLoop (removeAll fs p).1 ps := rfl

theorem removeAllLoop_snd (fs : FS) (ps : List Path) : (removeAllLoop fs ps).2 = none := by
  induction ps generalizing fs with
  | nil => rfl
  | cons p ps ih =>
    rw [removeAllLoop_cons]
    exact ih _

theorem removeAllLoop_find_frame (fs : FS) (ps : List Path) (q : Path)
    (h : ∀ p ∈ ps, ¬ p <+: q) :
    fsFind (removeAllLoop fs ps).1 q = fsFind fs q := by
  induction ps generalizing fs with
  | nil => rfl
  | cons p ps ih =>
    rw [removeAllLoop_cons, ih _ fun p' hp' => h p' (List.mem_cons_of_mem _ hp'),
      removeAll_find, if_neg (h p (List.mem_cons_self _ _))]

theorem removeAllLoop_find_none (fs : FS) (ps : List Path) (q : Path)
    (h : fsFind fs q = none) :
    fsFind (removeAllLoop fs ps).1 q = none := by
  induction ps generalizing fs with
  | nil => exact h
  | cons p ps ih =>
    rw [removeAllLoop_cons]
    apply ih
    rw [removeAll_find]
    by_cases hp : p <+: q <;> simp [hp, h]

theorem removeAllLoop_clears (fs : FS) (ps : List Path) (q : Path)
    (h : ∃ p ∈ ps, p <+: q) :
    fsFind (removeAllLoop fs ps).1 q = none := by
  induction ps generalizing fs with
  | nil => obtain ⟨p, hp, _⟩ := h; cases hp
  | cons p ps ih =>
    rw [removeAllLoop_cons]
    obtain ⟨p', hp', hpre⟩ := h
    rcases List.mem_cons.mp hp' with rfl | hmem
    · apply removeAllLoop_find_none
      rw [removeAll_find, if_pos hpre]
    · exact ih _ ⟨p', hmem, hpre⟩

theorem mem_removeAllLoop (fs : FS) (ps : List Path) (e : Path × Node)
    (h : e ∈ (removeAllLoop fs ps).1) :
    e ∈ fs ∧ ∀ p ∈ ps, ¬ p <+: e.1 := by
  induction ps generalizing fs with
  | nil => exact ⟨h, by simp⟩
  | cons p ps ih =>
    rw [removeAllLoop_cons] at h
    obtain ⟨hmem, hrest⟩ := ih _ h
    have hm2 := List.mem_filter.mp hmem
    refine ⟨hm2.1, ?_⟩
    intro p' hp'
    rcases List.mem_cons.mp hp' with rfl | hmem'
    · intro hc
      have hpred := hm2.2
      rw [List.isPrefixOf_iff_prefix.mpr hc] at hpred
      cases hpred
    · exact hrest p' hmem'

theorem osRemove_find_ne (fs : FS) (p q : Path) (h : q ≠ p) :
    fsFind (osRemove fs p).1 q = fsFind fs q := by
  have hfq : ∀ l : FS, fsFind (l.filter fun e => !(e.1 == p)) q = fsFind l q := by
    intro l
    have hk : fsFind (l.filter fun e => !(e.1 == p)) q
        = if (!(q == p)) = true then fsFind l q else none :=
      fsFind_filter_key l (fun x => !(x == p)) q
    rw [hk]
    simp [h]
  unfold osRemove
  cases hf : fsFind fs p with
  | none => rfl
  | some n =>
    cases n with
    | file c => exact hfq fs
    | dir pm =>
      by_cases hc : hasChildEntry fs p = true
      · simp [hc]
      · simp only [Bool.not_eq_true] at hc
        simp [hc]
        exact hfq fs

theorem osRemove_find_none (fs : FS) (p q : Path) (h : fsFind fs q = none) :
    fsFind (osRemove fs p).1 q = none := by
  unfold osRemove
  cases hf : fsFind fs p with
  | none => exact h
  | some n =>
    cases n with
    | file c =>
      show fsFind (fs.filter fun e => !(e.1 == p)) q = none
      exact fsFind_filter_none fs (fun x => !(x == p)) q h
    | dir pm =>
      by_cases hc : hasChildEntry fs p = true
      · simp [hc, h]
      · simp only [Bool.not_eq_true] at hc
        simp [hc]
        exact fsFind_filter_none fs (fun x => !(x == p)) q h

theorem osRemove_file (fs : FS) (p : Path) (c : String)
    (h : fsFind fs p = some (.file c)) :
    osRemove fs p = (fs.filter fun e => !(e.1 == p), none) := by
  unfold osRemove
  rw [h]

theorem fsFind_filter_self (fs : FS) (p : Path) :
    fsFind (fs.filter fun e => !(e.1 == p)) p = none := by
  have hk : fsFind (fs.filter fun e => !(e.1 == p)) p
      = if (!(p == p)) = true then fsFind fs p else none :=
    fsFind_filter_key fs (fun x => !(x == p)) p
  rw [hk]
  simp

/-! ### `deleteMVC` structure and frame lemmas -/

theorem deleteMVC_eq (root : Path) (fs : FS) :
    deleteMVC root fs =
      (match statFS (removeAllLoop fs (fixedNames.map fun nm => root ++ [nm])).1
          (root ++ ["go.mod"]) with
       | .found _ =>
         (match osRemove (removeAllLoop fs (fixedNames.map fun nm => root ++ [nm])).1
             (root ++ ["go.mod"]) with
          | (fs2, some e) => (fs2, some (.deleteGoModFailed e))
          | (fs2, none) => (fs2, none))
       | _ => ((removeAllLoop fs (fixedNames.map fun nm => root ++ [nm])).1, none)) := by
  unfold deleteMVC
  have hsnd := removeAllLoop_snd fs (fixedNames.map fun nm => root ++ [nm])
  cases hL : removeAllLoop fs (fixedNames.map fun nm => root ++ [nm]) with
  | mk fsL e =>
    rw [hL] at hsnd
    cases hsnd
    rfl

theorem deleteMVC_find_frame (fs : FS) (root q : Path)
    (h1 : ∀ nm ∈ fixedNames, ¬ (root ++ [nm]) <+: q)
    (h2 : q ≠ root ++ ["go.mod"]) :
    fsFind (deleteMVC root fs).1 q = fsFind fs q := by
  rw [deleteMVC_eq]
  have hmap : ∀ p ∈ fixedNames.map (fun nm => root ++ [nm]), ¬ p <+: q := by
    intro p hp
    obtain ⟨nm, hnm, rfl⟩ := List.mem_map.mp hp
    exact h1 nm hnm
  have hfr := removeAllLoop_find_frame fs (fixedNames.map fun nm => root ++ [nm]) q hmap
  cases hst : statFS (removeAllLoop fs (fixedNames.map fun nm => root ++ [nm])).1
      (root ++ ["go.mod"]) with
  | found n =>
    cases hr : osRemove (removeAllLoop fs (fixedNames.map fun nm => root ++ [nm])).1
        (root ++ ["go.mod"]) with
    | mk fs2 e =>
      have hne : fsFind fs2 q
          = fsFind (removeAllLoop fs (fixedNames.map fun nm => root ++ [nm])).1 q := by
        have := osRemove_find_ne (removeAllLoop fs (fixedNames.map fun nm => root ++ [nm])).1
          (root ++ ["go.mod"]) q h2
        rw [hr] at this
        exact this
      cases e with
      | none => simpa [hne] using hfr
      | some err => simpa [hne] using hfr
  | notExist => simpa using hfr
  | statErr => simpa using hfr

theorem deleteMVC_find_under (fs : FS) (root q : Path)
    (h : ∃ nm ∈ fixedNames, (root ++ [nm]) <+: q) :
    fsFind (deleteMVC root fs).1 q = none := by
  rw [deleteMVC_eq]
  have hcl : fsFind (removeAllLoop fs (fixedNames.map fun nm => root ++ [nm])).1 q = none := by
    obtain ⟨nm, hnm, hpre⟩ := h
    exact removeAllLoop_clears fs _ q ⟨root ++ [nm], List.mem_map.mpr ⟨nm, hnm, rfl⟩, hpre⟩
  cases hst : statFS (removeAllLoop fs (fixedNames.map fun nm => root ++ [nm])).1
      (root ++ ["go.mod"]) with
  | found n =>
    cases hr : osRemove (removeAllLoop fs (fixedNames.map fun nm => root ++ [nm])).1
        (root ++ ["go.mod"]) with
    | mk fs2 e =>
      have hn2 : fsFind fs2 q = none := by
        have := osRemove_find_none (removeAllLoop fs (fixedNames.map fun nm => root ++ [nm])).1
          (root ++ ["go.mod"]) q hcl
        rw [hr] at this
        exact this
      cases e with
      | none => simpa using hn2
      | some err => simpa using hn2
  | notExist => simpa using hcl
  | statErr => simpa using hcl

/-! ### Miscellaneous structural lemmas -/

theorem prefix_append_split {q a b : Path} (h : q <+: a ++ b) :
    q <+: a ∨ ∃ c, q = a ++ c ∧ c <+: b ∧ c ≠ [] := by
  by_cases hl : q.length ≤ a.length
  · exact Or.inl (List.prefix_of_prefix_length_le h (List.prefix_append a b) hl)
  · right
    have ha : a <+: q :=
      List.prefix_of_prefix_length_le (List.prefix_append a b) h (le_of_not_le hl)
    obtain ⟨c, hc⟩ := ha
    refine ⟨c, hc.symm, ?_, ?_⟩
    · obtain ⟨t, ht⟩ := h
      rw [← hc, List.append_assoc] at ht
      exact ⟨t, List.append_cancel_left ht⟩
    · intro hc0
      subst hc0
      rw [List.append_nil] at hc
      exact hl (le_of_eq (by rw [← hc]))

theorem goModInitModel_ok (root : Path) (m : String) (fs fs1 : FS)
    (h : goModInitModel root m fs = (fs1, none)) :
    fs1 = (root ++ ["go.mod"], Node.file (goModContent m)) :: fs := by
  unfold goModInitModel at h
  split at h
  · split at h
    · split at h
      · injection h with h1 h2
        exact h1.symm
      · injection h with h1 h2
        cases h2
    · injection h with h1 h2
      cases h2
  · injection h with h1 h2
    cases h2

theorem removeAllLoop_id (fs : FS) (ps : List Path)
    (h : ∀ p ∈ ps, ∀ e ∈ fs, ¬ p <+: e.1) :
    removeAllLoop fs ps = (fs, none) := by
  induction ps with
  | nil => rfl
  | cons p ps ih =>
    rw [removeAllLoop_cons]
    have hfix : (removeAll fs p).1 = fs := by
      show fs.filter (fun e => !(p.isPrefixOf e.1)) = fs
      apply List.filter_eq_self.mpr
      intro e he
      have hnp := h p (List.mem_cons_self _ _) e he
      have hb : p.isPrefixOf e.1 = false := by
        cases hbb : p.isPrefixOf e.1
        · rfl
        · exact absurd (List.isPrefixOf_iff_prefix.mp hbb) hnp
      simp [hb]
    rw [hfix]
    exact ih fun p' hp' e he => h p' (List.mem_cons_of_mem _ hp') e he

theorem osRemove_subset (fs : FS) (p : Path) (e : Path × Node)
    (h : e ∈ (osRemove fs p).1) : e ∈ fs := by
  unfold osRemove at h
  cases hf : fsFind fs p with
  | none => rw [hf] at h; exact h
  | some n =>
    rw [hf] at h
    cases n with
    | file c => exact (List.mem_filter.mp h).1
    | dir pm =>
      by_cases hc : hasChildEntry fs p = true
      · rw [if_pos hc] at h; exact h
      · rw [if_neg hc] at h; exact (List.mem_filter.mp h).1

theorem deleteMVC_skip (fs : FS) (root : Path)
    (hmem : ∀ p ∈ fixedNames.map (fun nm => root ++ [nm]), ∀ e ∈ fs, ¬ p <+: e.1)
    (hgm : ∀ n, statFS fs (root ++ ["go.mod"]) ≠ .found n) :
    deleteMVC root fs = (fs, none) := by
  rw [deleteMVC_eq, removeAllLoop_id fs _ hmem]
  cases hst : statFS (fs, (none : Option Err)).1 (root ++ ["go.mod"]) with
  | found n => exact absurd hst (hgm n)
  | notExist => rfl
  | statErr => rfl

/-! ### Claims -/

/-- C3: whenever the external module-initialization step reports a failure
(non-zero exit or failure to launch), `setupMVC` aborts with the wrapped
module-init error and returns exactly the filesystem the failed step left:
the provisioner itself creates none of the eight directories and none of the
six files. -/
theorem c3_mod_init_failure_aborts (init : FS → FS × Option Err) (root : Path)
    (m : String) (fs fs1 : FS) (e : Err) (h : init fs = (fs1, some e)) :
    setupMVC init root m fs = (fs1, some (Err.modInitFailed e)) := by
  unfold setupMVC
  rw [h]

/-- Witness for C3: a collaborator that fails without side effects leaves
the filesystem untouched and `setupMVC` reports the wrapped error. -/
theorem c3_mod_init_failure_aborts_witness :
    setupMVC (fun fs => (fs, some (Err.notFound ["r"]))) ["r"] "example.com/u/p1" []
      = ([], some (Err.modInitFailed (Err.notFound ["r"]))) :=
  c3_mod_init_failure_aborts _ ["r"] "example.com/u/p1" [] [] (Err.notFound ["r"]) rfl

/-- C2: `deleteMVC` deletes only paths under the eight fixed top-level names
and the manifest `go.mod` at the root; at every other path the filesystem is
left unchanged, for every root path and every starting state. -/
theorem c2_delete_scoped_to_fixed_names (fs : FS) (root q : Path)
    (h1 : ∀ nm ∈ fixedNames, ¬ (root ++ [nm]) <+: q)
    (h2 : q ≠ root ++ ["go.mod"]) :
    fsFind (deleteMVC root fs).1 q = fsFind fs q :=
  deleteMVC_find_frame fs root q h1 h2

/-- Witness for C2: an unrelated file the caller added under the root
survives decommissioning. -/
theorem c2_delete_scoped_to_fixed_names_witness :
    fsFind (deleteMVC ["r"]
        [(["r"], Node.dir ⟨true, true⟩), (["r", "extra.txt"], Node.file "keep"),
         (["r", "cmd"], Node.dir ⟨true, true⟩), (["r", "cmd", "a.go"], Node.file "x"),
         (["r", "go.mod"], Node.file "m")]).1 ["r", "extra.txt"]
      = fsFind
        [(["r"], Node.dir ⟨true, true⟩), (["r", "extra.txt"], Node.file "keep"),
         (["r", "cmd"], Node.dir ⟨true, true⟩), (["r", "cmd", "a.go"], Node.file "x"),
         (["r", "go.mod"], Node.file "m")] ["r", "extra.txt"] :=
  c2_delete_scoped_to_fixed_names _ _ _ (by decide) (by decide)

/-- C10: when no filesystem entry exists at or under the root path,
`deleteMVC` succeeds and performs no modification at all: every removal of
the eight fixed names is a no-op and the manifest step is skipped because
its existence probe does not succeed. -/
theorem c10_delete_absent_root (fs : FS) (root : Path)
    (h : ∀ e ∈ fs, ¬ root <+: e.1) :
    deleteMVC root fs = (fs, none) := by
  have hloop : removeAllLoop fs (fixedNames.map fun nm => root ++ [nm]) = (fs, none) := by
    apply removeAllLoop_id
    intro p hp e he
    obtain ⟨nm, hnm, rfl⟩ := List.mem_map.mp hp
    intro hc
    exact h e he (List.IsPrefix.trans ⟨[nm], rfl⟩ hc)
  have hgm : fsFind fs (root ++ ["go.mod"]) = none := by
    apply fsFind_eq_none
    intro e he hc
    exact h e he (by rw [hc]; exact ⟨["go.mod"], rfl⟩)
  rw [deleteMVC_eq, hloop]
  cases hst : statFS (fs, (none : Option Err)).1 (root ++ ["go.mod"]) with
  | found n =>
    exfalso
    have hf := (statFS_found_elim _ _ n hst).1
    rw [show ((fs, (none : Option Err)).1 : FS) = fs from rfl, hgm] at hf
    cases hf
  | notExist => rfl
  | statErr => rfl

/-- Witness for C10: decommissioning a root that was never provisioned (the
filesystem holds only unrelated content) succeeds and changes nothing. -/
theorem c10_delete_absent_root_witness :
    deleteMVC ["r"] [(["other"], Node.dir ⟨true, true⟩), (["other", "f.txt"], Node.file "x")]
      = ([(["other"], Node.dir ⟨true, true⟩), (["other", "f.txt"], Node.file "x")], none) :=
  c10_delete_absent_root _ ["r"] (by decide)

/-- C9: provisioning steps never remove, truncate, or replace an existing
node: a node of any kind at the probed path makes `createDir` and
`createFile` report success without touching the filesystem, and both
operations preserve every existing node with identical content. -/
theorem c9_provision_never_destroys (fs : FS) (p q : Path) (c : String) (n n' : Node) :
    (fsFind fs p = some n → createDir fs p = (fs, none)) ∧
    (fsFind fs p = some n → createFile fs p c = (fs, none)) ∧
    (fsFind fs q = some n' → fsFind (createDir fs p).1 q = some n') ∧
    (fsFind fs q = some n' → fsFind (createFile fs p c).1 q = some n') := by
  refine ⟨?_, ?_, ?_, ?_⟩
  · intro h
    unfold createDir
    cases hs : statFS fs p with
    | notExist => exact absurd hs (statFS_ne_notExist_of_some fs p n h)
    | found _ => rfl
    | statErr => rfl
  · intro h
    unfold createFile
    cases hs : statFS fs p with
    | notExist => exact absurd hs (statFS_ne_notExist_of_some fs p n h)
    | found _ => rfl
    | statErr => rfl
  · intro h
    exact createDir_find fs p q (some n') h (Or.inl rfl)
  · intro h
    exact createFile_find fs p q c (some n') h (Or.inl rfl)

/-- Witness for C9: a regular file sitting at a directory path (and equally
at a file path) is reported as success and left exactly in place. -/
theorem c9_provision_never_destroys_witness :
    createDir [(["r"], Node.dir ⟨true, true⟩), (["r", "cmd"], Node.file "occupied")] ["r", "cmd"]
      = ([(["r"], Node.dir ⟨true, true⟩), (["r", "cmd"], Node.file "occupied")], none) ∧
    createFile [(["r"], Node.dir ⟨true, true⟩), (["r", "cmd"], Node.file "occupied")]
        ["r", "cmd"] "body"
      = ([(["r"], Node.dir ⟨true, true⟩), (["r", "cmd"], Node.file "occupied")], none) ∧
    fsFind (createDir [(["r"], Node.dir ⟨true, true⟩), (["r", "cmd"], Node.file "occupied")]
        ["r", "cmd"]).1 ["r"] = some (Node.dir ⟨true, true⟩) ∧
    fsFind (createFile [(["r"], Node.dir ⟨true, true⟩), (["r", "cmd"], Node.file "occupied")]
        ["r", "cmd"] "body").1 ["r"] = some (Node.dir ⟨true, true⟩) := by
  have h := c9_provision_never_destroys
    [(["r"], Node.dir ⟨true, true⟩), (["r", "cmd"], Node.file "occupied")]
    ["r", "cmd"] ["r"] "body" (Node.file "occupied") (Node.dir ⟨true, true⟩)
  exact ⟨h.1 (by decide), h.2.1 (by decide), h.2.2.1 (by decide), h.2.2.2 (by decide)⟩

/-- C4: invoking provision a second time with the same arguments (the
module-init collaborator stubbed or tolerant, i.e. preserving existing
nodes) never alters the content of any file present after the first run:
every existing file keeps its content byte for byte. -/
theorem c4_second_run_preserves_files (init1 init2 : FS → FS × Option Err)
    (root : Path) (m : String) (fs0 : FS) (p : Path) (c : String)
    (hinit2 : ∀ fs q n, fsFind fs q = some n → fsFind (init2 fs).1 q = some n)
    (hfile : fsFind (setupMVC init1 root m fs0).1 p = some (Node.file c)) :
    fsFind (setupMVC init2 root m (setupMVC init1 root m fs0).1).1 p
      = some (Node.file c) :=
  setupMVC_find init2 root m _ p (some (Node.file c))
    (hinit2 _ p _ hfile) (Or.inl rfl)

/-- Witness for C4: with a stubbed collaborator, the model file written by
the first run still holds the template content after the second run. -/
theorem c4_second_run_preserves_files_witness :
    fsFind (setupMVC (fun fs => (fs, none)) ["r"] "example.com/u/p1"
        (setupMVC (fun fs => (fs, none)) ["r"] "example.com/u/p1"
          [(["r"], Node.dir ⟨true, true⟩)]).1).1
      ["r", "models", "user.go"] = some (Node.file modelContent) :=
  c4_second_run_preserves_files _ _ ["r"] "example.com/u/p1" _ _ _
    (fun _ _ _ h => h) (by decide)

/-- C5: decommission is idempotent: immediately after a successful
`deleteMVC`, a second invocation returns success (and changes nothing) even
though none of the eight fixed names nor the manifest remain; absence of any
of these entries is never an error. -/
theorem c5_delete_idempotent (fs fs1 : FS) (root : Path)
    (h : deleteMVC root fs = (fs1, none)) :
    deleteMVC root fs1 = (fs1, none) := by
  rw [deleteMVC_eq] at h
  have hmemL : ∀ e ∈ (removeAllLoop fs (fixedNames.map fun nm => root ++ [nm])).1,
      ∀ p ∈ fixedNames.map (fun nm => root ++ [nm]), ¬ p <+: e.1 :=
    fun e he => (mem_removeAllLoop fs _ e he).2
  cases hst : statFS (removeAllLoop fs (fixedNames.map fun nm => root ++ [nm])).1
      (root ++ ["go.mod"]) with
  | found n =>
    rw [hst] at h
    cases hr : osRemove (removeAllLoop fs (fixedNames.map fun nm => root ++ [nm])).1
        (root ++ ["go.mod"]) with
    | mk fs2 e =>
      rw [hr] at h
      cases e with
      | some err => simp at h
      | none =>
        have hfs : fs2 = fs1 := by injection h
        subst hfs
        have hfL : fsFind (removeAllLoop fs (fixedNames.map fun nm => root ++ [nm])).1
            (root ++ ["go.mod"]) = some n := (statFS_found_elim _ _ n hst).1
        have hn : fsFind fs2 (root ++ ["go.mod"]) = none := by
          unfold osRemove at hr
          rw [hfL] at hr
          cases n with
          | file c =>
            have h2 : (removeAllLoop fs (fixedNames.map fun nm => root ++ [nm])).1.filter
                (fun e => !(e.1 == root ++ ["go.mod"])) = fs2 := by injection hr
            rw [← h2]
            exact fsFind_filter_self _ _
          | dir pm =>
            by_cases hc : hasChildEntry
                (removeAllLoop fs (fixedNames.map fun nm => root ++ [nm])).1
                (root ++ ["go.mod"]) = true
            · rw [if_pos hc] at hr
              injection hr with h1 h2
              cases h2
            · rw [if_neg hc] at hr
              have h2 : (removeAllLoop fs (fixedNames.map fun nm => root ++ [nm])).1.filter
                  (fun e => !(e.1 == root ++ ["go.mod"])) = fs2 := by injection hr
              rw [← h2]
              exact fsFind_filter_self _ _
        apply deleteMVC_skip
        · intro p hp e he
          exact hmemL e (osRemove_subset _ _ e (by rw [hr]; exact he)) p hp
        · intro n2 hC
          have := (statFS_found_elim _ _ n2 hC).1
          rw [hn] at this
          cases this
  | notExist =>
    rw [hst] at h
    have hfs : (removeAllLoop fs (fixedNames.map fun nm => root ++ [nm])).1 = fs1 := by
      injection h
    have hn : fsFind fs1 (root ++ ["go.mod"]) = none := by
      rw [← hfs]
      exact statFS_notExist_elim _ _ hst
    apply deleteMVC_skip
    · intro p hp e he
      exact hmemL e (by rw [hfs]; exact he) p hp
    · intro n2 hC
      have := (statFS_found_elim _ _ n2 hC).1
      rw [hn] at this
      cases this
  | statErr =>
    rw [hst] at h
    have hfs : (removeAllLoop fs (fixedNames.map fun nm => root ++ [nm])).1 = fs1 := by
      injection h
    apply deleteMVC_skip
    · intro p hp e he
      exact hmemL e (by rw [hfs]; exact he) p hp
    · intro n2 hC
      rw [← hfs] at hC
      rw [hst] at hC
      cases hC

/-- Witness for C5: after one successful decommission of a provisioned
root, a second decommission succeeds with nothing left to delete. -/
theorem c5_delete_idempotent_witness :
    deleteMVC ["r"] [(["r"], Node.dir ⟨true, true⟩)]
      = ([(["r"], Node.dir ⟨true, true⟩)], none) :=
  c5_delete_idempotent
    [(["r"], Node.dir ⟨true, true⟩), (["r", "cmd"], Node.dir ⟨true, true⟩),
     (["r", "cmd", "api"], Node.dir ⟨true, true⟩), (["r", "go.mod"], Node.file "module m")]
    [(["r"], Node.dir ⟨true, true⟩)] ["r"] (by decide)

/-- A canonical successful provisioning run used to state content claims:
root `["p"]`, a pre-existing fully accessible empty root directory, and the
modelled external collaborator. -/
def provisioned (m : String) : FS :=
  (setupMVC (goModInitModel ["p"] m) ["p"] m [(["p"], Node.dir ⟨true, true⟩)]).1

theorem infix_of_data (x s : String) (a b : List Char)
    (h : a ++ x.data ++ b = s.data) : x.data <:+: s.data := ⟨a, b, h⟩

/-- C6: the module identifier appears byte-for-byte as the prefix of every
cross-package reference in the generated files: the entry point imports
`<moduleID>/router`, the router imports `<moduleID>/controller` and
`<moduleID>/middleware`, and the model and utility files receive the fixed
contents `modelContent` and `pkgContent`, which take no module identifier
at all. -/
theorem c6_module_id_verbatim (m m' : String) :
    fsFind (provisioned m) ["p", "cmd", "api", "main.go"]
      = some (Node.file (mainGoContent m)) ∧
    ("\"" ++ m ++ "/router\"").data <:+: (mainGoContent m).data ∧
    fsFind (provisioned m) ["p", "router", "router.go"]
      = some (Node.file (routerContent m)) ∧
    ("\"" ++ m ++ "/controller\"").data <:+: (routerContent m).data ∧
    ("\"" ++ m ++ "/middleware\"").data <:+: (routerContent m).data ∧
    fsFind (provisioned m) ["p", "models", "user.go"] = some (Node.file modelContent) ∧
    fsFind (provisioned m') ["p", "models", "user.go"] = some (Node.file modelContent) ∧
    fsFind (provisioned m) ["p", "pkg", "utility.go"] = some (Node.file pkgContent) ∧
    fsFind (provisioned m') ["p", "pkg", "utility.go"] = some (Node.file pkgContent) := by
  refine ⟨rfl, ?_, rfl, ?_, ?_, rfl, rfl, rfl, rfl⟩
  · refine infix_of_data _ _
      ("package main\n\nimport (\n\t\"fmt\"\n\t\"github.com/gin-gonic/gin\"\n\t" : String).data
      ("\n)\n\nfunc main() \x7b\n\tfmt.Println(\"Starting the Gin server...\")\n\tr := gin.Default()\n\trouter.InitializeRoutes(r)\n\tr.Run(\":8080\")\n\x7d\n" : String).data ?_
    have h1 : mainGoPre.data
        = ("package main\n\nimport (\n\t\"fmt\"\n\t\"github.com/gin-gonic/gin\"\n\t" : String).data
          ++ ("\"" : String).data := rfl
    have h2 : mainGoPost.data
        = ("/router\"" : String).data
          ++ ("\n)\n\nfunc main() \x7b\n\tfmt.Println(\"Starting the Gin server...\")\n\tr := gin.Default()\n\trouter.InitializeRoutes(r)\n\tr.Run(\":8080\")\n\x7d\n" : String).data := rfl
    simp only [mainGoContent, String.data_append, h1, h2, List.append_assoc]
  · refine infix_of_data _ _
      ("package router\n\nimport (\n\t\"github.com/gin-gonic/gin\"\n\t" : String).data
      (("\n\t\"" ++ m ++ routerPost) : String).data ?_
    have h1 : routerPre.data
        = ("package router\n\nimport (\n\t\"github.com/gin-gonic/gin\"\n\t" : String).data
          ++ ("\"" : String).data := rfl
    have h2 : routerMid.data
        = ("/controller\"" : String).data ++ ("\n\t\"" : String).data := rfl
    simp only [routerContent, String.data_append, h1, h2, List.append_assoc]
  · refine infix_of_data _ _
      ((routerPre ++ m ++ "/controller\"\n\t") : String).data
      ("\n)\n\n// InitializeRoutes sets up the application\x27s routes\nfunc InitializeRoutes(r *gin.Engine) \x7b\n\tr.Use(middleware.RequestLogger())\n\n\tr.GET(\"/\", controller.HomeController)\n\x7d\n" : String).data ?_
    have h2 : routerMid.data
        = ("/controller\"\n\t" : String).data ++ ("\"" : String).data := rfl
    have h3 : routerPost.data
        = ("/middleware\"" : String).data
          ++ ("\n)\n\n// InitializeRoutes sets up the application\x27s routes\nfunc InitializeRoutes(r *gin.Engine) \x7b\n\tr.Use(middleware.RequestLogger())\n\n\tr.GET(\"/\", controller.HomeController)\n\x7d\n" : String).data := rfl
    simp only [routerContent, String.data_append, h2, h3, List.append_assoc]

/-- C8: only the entry point and the router depend on the module
identifier: for any two identifiers the provisioned controller, model,
utility and middleware files are byte-identical, while the entry point and
the router render their fixed templates with the identifier substituted at
one and at two points respectively (three substitution points in total). -/
theorem c8_three_substitution_points (m1 m2 : String) :
    fsFind (provisioned m1) ["p", "controller", "home_controller.go"]
      = fsFind (provisioned m2) ["p", "controller", "home_controller.go"] ∧
    fsFind (provisioned m1) ["p", "models", "user.go"]
      = fsFind (provisioned m2) ["p", "models", "user.go"] ∧
    fsFind (provisioned m1) ["p", "pkg", "utility.go"]
      = fsFind (provisioned m2) ["p", "pkg", "utility.go"] ∧
    fsFind (provisioned m1) ["p", "middleware", "request_logger.go"]
      = fsFind (provisioned m2) ["p", "middleware", "request_logger.go"] ∧
    fsFind (provisioned m1) ["p", "cmd", "api", "main.go"]
      = some (Node.file (mainGoPre ++ m1 ++ mainGoPost)) ∧
    fsFind (provisioned m1) ["p", "router", "router.go"]
      = some (Node.file (routerPre ++ m1 ++ routerMid ++ m1 ++ routerPost)) := by
  have hc : ∀ m : String, fsFind (provisioned m) ["p", "controller", "home_controller.go"]
      = some (Node.file controllerContent) := fun _ => rfl
  have hm : ∀ m : String, fsFind (provisioned m) ["p", "models", "user.go"]
      = some (Node.file modelContent) := fun _ => rfl
  have hp : ∀ m : String, fsFind (provisioned m) ["p", "pkg", "utility.go"]
      = some (Node.file pkgContent) := fun _ => rfl
  have hw : ∀ m : String, fsFind (provisioned m) ["p", "middleware", "request_logger.go"]
      = some (Node.file middlewareContent) := fun _ => rfl
  exact ⟨(hc m1).trans (hc m2).symm, (hm m1).trans (hm m2).symm,
    (hp m1).trans (hp m2).symm, (hw m1).trans (hw m2).symm, rfl, rfl⟩

/-- C7 counterexample: with a pre-existing unsearchable directory at
`r/cmd`, the `os.Stat` probe on `r/cmd/api` fails with a permission error
(on which `os.IsNotExist` is false), `createDir` silently reports success,
and the entire provisioning run succeeds without ever creating that
directory or its file — no I/O error is surfaced, contradicting the claim
that any permission failure while creating the eight directories aborts the
run. -/
theorem c7_counterexample :
    statFS [(["r"], Node.dir ⟨true, true⟩), (["r", "cmd"], Node.dir ⟨false, false⟩)]
        ["r", "cmd", "api"] = .statErr ∧
    (setupMVC (goModInitModel ["r"] "m") ["r"] "m"
        [(["r"], Node.dir ⟨true, true⟩), (["r", "cmd"], Node.dir ⟨false, false⟩)]).2 = none ∧
    fsFind (setupMVC (goModInitModel ["r"] "m") ["r"] "m"
        [(["r"], Node.dir ⟨true, true⟩), (["r", "cmd"], Node.dir ⟨false, false⟩)]).1
      ["r", "cmd", "api"] = none ∧
    fsFind (setupMVC (goModInitModel ["r"] "m") ["r"] "m"
        [(["r"], Node.dir ⟨true, true⟩), (["r", "cmd"], Node.dir ⟨false, false⟩)]).1
      ["r", "cmd", "api", "main.go"] = none :=
  ⟨rfl, rfl, rfl, rfl⟩

/-- C7 (amended): a failure reported by the directory-creation call itself
(`os.MkdirAll`, reached when the existence probe reports not-exist) aborts
`setupMVC` with that error before any file-writing step runs, the partial
state created so far is returned unchanged (no rollback) and every
pre-existing node survives; a permission failure inside the `os.Stat`
existence probe, however, is silently swallowed: `createDir` reports
success without creating anything. -/
theorem c7_dir_creation_failure_amended (init : FS → FS × Option Err)
    (root : Path) (m : String) (fs fs1 fsD : FS) (e : Err)
    (hinit : init fs = (fs1, none))
    (hdirs : createDirs fs1 (dirsList root) = (fsD, some e)) :
    setupMVC init root m fs = (fsD, some e) ∧
    (∀ q n, fsFind fs1 q = some n → fsFind fsD q = some n) ∧
    (∀ fs' p, statFS fs' p = .statErr → createDir fs' p = (fs', none)) := by
  refine ⟨?_, ?_, ?_⟩
  · unfold setupMVC
    rw [hinit]
    show setupRest root m fs1 = (fsD, some e)
    unfold setupRest
    rw [hdirs]
    rfl
  · intro q n h
    have hf := createDirs_find (dirsList root) fs1 q (some n) h (Or.inl rfl)
    rw [hdirs] at hf
    exact hf
  · intro fs' p h
    unfold createDir
    rw [h]

/-- Witness for the amended C7: a searchable but unwritable root makes
`os.MkdirAll` fail on the first directory; the run aborts with that error
and the filesystem is exactly as before. -/
theorem c7_dir_creation_failure_amended_witness :
    setupMVC (fun fs => (fs, none)) ["r"] "m" [(["r"], Node.dir ⟨true, false⟩)]
      = ([(["r"], Node.dir ⟨true, false⟩)], some (Err.accessDenied ["r", "cmd"])) ∧
    fsFind [(["r"], Node.dir ⟨true, false⟩)] ["r"] = some (Node.dir ⟨true, false⟩) := by
  have h := c7_dir_creation_failure_amended (fun fs => (fs, none)) ["r"] "m"
    [(["r"], Node.dir ⟨true, false⟩)] [(["r"], Node.dir ⟨true, false⟩)]
    [(["r"], Node.dir ⟨true, false⟩)] (Err.accessDenied ["r", "cmd"]) rfl (by decide)
  exact ⟨h.1, h.2.1 ["r"] (Node.dir ⟨true, false⟩) (by decide)⟩

/-! ### Support lemmas for the round-trip claim -/

theorem fsFind_filter_ne (fs : FS) (p q : Path) (h : q ≠ p) :
    fsFind (fs.filter fun e => !(e.1 == p)) q = fsFind fs q := by
  have hk : fsFind (fs.filter fun e => !(e.1 == p)) q
      = if (!(q == p)) = true then fsFind fs q else none :=
    fsFind_filter_key fs (fun x => !(x == p)) q
  rw [hk]
  simp [h]

theorem properPrefixes_append_singleton (a : Path) (x : String) :
    properPrefixes (a ++ [x]) = properPrefixes a ++ [a] := by
  unfold properPrefixes
  rw [List.length_append, List.length_singleton, List.range_succ, List.map_append]
  congr 1
  · apply List.map_congr_left
    intro i hi
    exact List.take_append_of_le_length (le_of_lt (List.mem_range.mp hi))
  · simp [List.take_left]

theorem mem_properPrefixes (root q : Path) (hq : q <+: root) (hne : q ≠ root) :
    q ∈ properPrefixes root := by
  unfold properPrefixes
  refine List.mem_map.mpr ⟨q.length, List.mem_range.mpr ?_, ?_⟩
  · rcases lt_or_eq_of_le hq.length_le with h | h
    · exact h
    · exact absurd (hq.eq_of_length h) hne
  · exact (List.prefix_iff_eq_take.mp hq).symm

theorem properPrefixes_length_lt (root q : Path) (hq : q ∈ properPrefixes root) :
    q.length < root.length := by
  unfold properPrefixes at hq
  obtain ⟨i, hi, rfl⟩ := List.mem_map.mp hq
  rw [List.length_take]
  have := List.mem_range.mp hi
  omega

theorem prefix_cons_head (x : String) (xs c : List String)
    (hc : c <+: x :: xs) (hne : c ≠ []) : ∃ c', c = x :: c' := by
  cases c with
  | nil => exact absurd rfl hne
  | cons y c' =>
    obtain ⟨t, ht⟩ := hc
    injection ht with h1 h2
    exact ⟨c', by rw [h1]⟩

theorem append_singleton_prefix_inj (a : Path) (x y : String)
    (h : (a ++ [x]) <+: (a ++ [y])) : x = y := by
  obtain ⟨t, ht⟩ := h
  rw [List.append_assoc] at ht
  have h2 := List.append_cancel_left ht
  injection h2

/-- C1 counterexample: with a pre-existing file `r/cmd/x.txt` under one of
the eight fixed names, provision succeeds (the file is under `cmd`, whose
subdirectory `cmd/api` is still created) and decommission succeeds, yet the
pre-existing file is destroyed by `os.RemoveAll(r/cmd)` and not restored:
the round trip does not return the filesystem to its pre-provision state,
and the divergence is not at the root directory itself. -/
theorem c1_round_trip_counterexample :
    fsFind [(["r"], Node.dir ⟨true, true⟩), (["r", "cmd"], Node.dir ⟨true, true⟩),
        (["r", "cmd", "x.txt"], Node.file "keep")] ["r", "cmd", "x.txt"]
      = some (Node.file "keep") ∧
    (setupMVC (goModInitModel ["r"] "example.com/u/p1") ["r"] "example.com/u/p1"
        [(["r"], Node.dir ⟨true, true⟩), (["r", "cmd"], Node.dir ⟨true, true⟩),
         (["r", "cmd", "x.txt"], Node.file "keep")]).2 = none ∧
    (deleteMVC ["r"] (setupMVC (goModInitModel ["r"] "example.com/u/p1") ["r"]
        "example.com/u/p1"
        [(["r"], Node.dir ⟨true, true⟩), (["r", "cmd"], Node.dir ⟨true, true⟩),
         (["r", "cmd", "x.txt"], Node.file "keep")]).1).2 = none ∧
    fsFind (deleteMVC ["r"] (setupMVC (goModInitModel ["r"] "example.com/u/p1") ["r"]
        "example.com/u/p1"
        [(["r"], Node.dir ⟨true, true⟩), (["r", "cmd"], Node.dir ⟨true, true⟩),
         (["r", "cmd", "x.txt"], Node.file "keep")]).1).1 ["r", "cmd", "x.txt"]
      = none ∧
    (["r", "cmd", "x.txt"] : Path) ≠ ["r"] :=
  ⟨rfl, rfl, rfl, rfl, by decide⟩

theorem deleteMVC_found_file (root : Path) (fs : FS) (c : String)
    (h : statFS (removeAllLoop fs (fixedNames.map fun nm => root ++ [nm])).1
        (root ++ ["go.mod"]) = .found (Node.file c))
    (hfind : fsFind (removeAllLoop fs (fixedNames.map fun nm => root ++ [nm])).1
        (root ++ ["go.mod"]) = some (Node.file c)) :
    deleteMVC root fs
      = ((removeAllLoop fs (fixedNames.map fun nm => root ++ [nm])).1.filter
          (fun e => !(e.1 == root ++ ["go.mod"])), none) := by
  rw [deleteMVC_eq, h]
  show (match osRemove (removeAllLoop fs (fixedNames.map fun nm => root ++ [nm])).1
      (root ++ ["go.mod"]) with
    | (fs2, some e) => (fs2, some (Err.deleteGoModFailed e))
    | (fs2, none) => (fs2, none)) = _
  rw [osRemove_file _ _ _ hfind]

/-- C1 (amended): provision followed by decommission restores the
filesystem exactly, at every path, provided that before provisioning no
entry exists under any of the eight fixed top-level names and no manifest
`go.mod` exists at the root (the counterexample shows that pre-existing
content under one of the eight names is destroyed and not restored).  The
root must pre-exist as an accessible directory with accessible ancestors
for the module-init collaborator to launch, so the claim's carve-out for
creating the root itself never applies to a successful run. -/
theorem c1_round_trip_amended (root : Path) (m : String) (fs : FS)
    (hroot : statFS fs root = .found (Node.dir ⟨true, true⟩))
    (hparents : ∀ q ∈ properPrefixes root, q ≠ [] → (fsFind fs q).isSome = true)
    (hempty : ∀ e ∈ fs, ∀ nm ∈ fixedNames, ¬ (root ++ [nm]) <+: e.1)
    (hnomod : fsFind fs (root ++ ["go.mod"]) = none)
    (hsetup : (setupMVC (goModInitModel root m) root m fs).2 = none) :
    (deleteMVC root (setupMVC (goModInitModel root m) root m fs).1).2 = none ∧
    ∀ q, fsFind (deleteMVC root (setupMVC (goModInitModel root m) root m fs).1).1 q
      = fsFind fs q := by
  have hfsroot : fsFind fs root = some (Node.dir ⟨true, true⟩) :=
    (statFS_found_elim _ _ _ hroot).1
  have hblock : ∀ q ∈ properPrefixes root, nodeBlocks (fsFind fs q) = false :=
    (statFS_found_elim _ _ _ hroot).2
  have hroot_ne_gmp : root ≠ root ++ ["go.mod"] := by
    intro he
    have h1 := congrArg List.length he
    rw [List.length_append] at h1
    simp at h1
  have hSMVC : setupMVC (goModInitModel root m) root m fs
      = setupRest root m ((root ++ ["go.mod"], Node.file (goModContent m)) :: fs) := by
    cases hI : goModInitModel root m fs with
    | mk fsI e0 =>
      cases e0 with
      | some err =>
        exfalso
        have hx : setupMVC (goModInitModel root m) root m fs
            = (fsI, some (Err.modInitFailed err)) := by
          unfold setupMVC
          rw [hI]
        rw [hx] at hsetup
        cases hsetup
      | none =>
        have hIfs := goModInitModel_ok root m fs fsI hI
        unfold setupMVC
        rw [hI, hIfs]
  rw [hSMVC]
  generalize hfs1 :
    (setupRest root m ((root ++ ["go.mod"], Node.file (goModContent m)) :: fs)).1 = fs1
  have hstable : ∀ q, q ≠ root ++ ["go.mod"] →
      (∀ nm ∈ fixedNames, ¬ (root ++ [nm]) <+: q) →
      fsFind fs1 q = fsFind fs q := by
    intro q hne hq1
    rw [← hfs1]
    have hIq : fsFind ((root ++ ["go.mod"], Node.file (goModContent m)) :: fs) q
        = fsFind fs q := by
      rw [fsFind_cons, if_neg hne]
    cases hv : fsFind fs q with
    | some n => exact setupRest_find root m _ q (some n) (by rw [hIq, hv]) (Or.inl rfl)
    | none =>
      apply setupRest_find root m _ q none (by rw [hIq, hv])
      refine Or.inr ⟨?_, ?_⟩
      · by_cases hq0 : q = []
        · exact Or.inl hq0
        · refine Or.inr ?_
          have hdir_case : ∀ (nm : String) (rest : List String), nm ∈ fixedNames →
              q <+: root ++ (nm :: rest) → False := by
            intro nm rest hnm hqp
            rcases prefix_append_split hqp with hqr | ⟨c, rfl, hcp, hcne⟩
            · by_cases hner : q = root
              · rw [hner, hfsroot] at hv
                cases hv
              · have hps := hparents q (mem_properPrefixes root q hqr hner) hq0
                rw [hv] at hps
                cases hps
            · obtain ⟨c', rfl⟩ := prefix_cons_head nm rest c hcp hcne
              exact hq1 nm hnm ⟨c', by simp⟩
          intro p hp hqp
          simp only [dirsList, List.mem_cons, List.not_mem_nil, or_false] at hp
          rcases hp with rfl | rfl | rfl | rfl | rfl | rfl | rfl | rfl
          · exact hdir_case "cmd" ["api"] (by decide) hqp
          · exact hdir_case "controller" [] (by decide) hqp
          · exact hdir_case "models" [] (by decide) hqp
          · exact hdir_case "pkg" [] (by decide) hqp
          · exact hdir_case "config" [] (by decide) hqp
          · exact hdir_case "views" [] (by decide) hqp
          · exact hdir_case "router" [] (by decide) hqp
          · exact hdir_case "middleware" [] (by decide) hqp
      · intro p hp he
        have hfp_under : ∃ nm ∈ fixedNames, (root ++ [nm]) <+: p := by
          simp only [filePaths, List.mem_cons, List.not_mem_nil, or_false] at hp
          rcases hp with rfl | rfl | rfl | rfl | rfl | rfl
          · exact ⟨"cmd", by decide, ⟨["api", "main.go"], by simp⟩⟩
          · exact ⟨"controller", by decide, ⟨["home_controller.go"], by simp⟩⟩
          · exact ⟨"models", by decide, ⟨["user.go"], by simp⟩⟩
          · exact ⟨"pkg", by decide, ⟨["utility.go"], by simp⟩⟩
          · exact ⟨"router", by decide, ⟨["router.go"], by simp⟩⟩
          · exact ⟨"middleware", by decide, ⟨["request_logger.go"], by simp⟩⟩
        obtain ⟨nm, hnm, hpre⟩ := hfp_under
        exact hq1 nm hnm (by rw [he]; exact hpre)
  have hpp_ne_gmp : ∀ q ∈ properPrefixes root, q ≠ root ++ ["go.mod"] := by
    intro q hq he
    have hlt := properPrefixes_length_lt root q hq
    have h1 := congrArg List.length he
    rw [List.length_append] at h1
    simp at h1
    omega
  have hpp_not_under : ∀ q, q.length ≤ root.length →
      ∀ nm ∈ fixedNames, ¬ (root ++ [nm]) <+: q := by
    intro q hlen nm hnm hc
    have h1 := hc.length_le
    rw [List.length_append] at h1
    simp at h1
    omega
  have hpre_val : ∀ q ∈ properPrefixes root, fsFind fs1 q = fsFind fs q := by
    intro q hq
    exact hstable q (hpp_ne_gmp q hq)
      (hpp_not_under q (le_of_lt (properPrefixes_length_lt root q hq)))
  have hroot_val : fsFind fs1 root = some (Node.dir ⟨true, true⟩) := by
    rw [hstable root hroot_ne_gmp (hpp_not_under root le_rfl), hfsroot]
  have hgm1 : fsFind fs1 (root ++ ["go.mod"]) = some (Node.file (goModContent m)) := by
    rw [← hfs1]
    exact setupRest_find root m _ _ _ (by rw [fsFind_cons, if_pos rfl]) (Or.inl rfl)
  have hnb1 : ∀ q ∈ properPrefixes (root ++ ["go.mod"]),
      nodeBlocks (fsFind fs1 q) = false := by
    rw [properPrefixes_append_singleton]
    intro q hq
    rcases List.mem_append.mp hq with hq' | hq'
    · rw [hpre_val q hq']
      exact hblock q hq'
    · rw [List.mem_singleton.mp hq', hroot_val]
      rfl
  have hLmem_gmp : ∀ p ∈ fixedNames.map (fun nm => root ++ [nm]),
      ¬ p <+: root ++ ["go.mod"] := by
    intro p hp
    obtain ⟨nm, hnm, rfl⟩ := List.mem_map.mp hp
    intro hc
    have heq := append_singleton_prefix_inj root nm "go.mod" hc
    subst heq
    exact absurd hnm (by decide)
  have hLval : fsFind (removeAllLoop fs1 (fixedNames.map fun nm => root ++ [nm])).1
      (root ++ ["go.mod"]) = some (Node.file (goModContent m)) := by
    rw [removeAllLoop_find_frame fs1 _ _ hLmem_gmp]
    exact hgm1
  have hLnb : ∀ q ∈ properPrefixes (root ++ ["go.mod"]),
      nodeBlocks (fsFind (removeAllLoop fs1 (fixedNames.map fun nm => root ++ [nm])).1 q)
        = false := by
    intro q hq
    have hqlen : q.length ≤ root.length := by
      rw [properPrefixes_append_singleton] at hq
      rcases List.mem_append.mp hq with hq' | hq'
      · exact le_of_lt (properPrefixes_length_lt root q hq')
      · exact le_of_eq (congrArg List.length (List.mem_singleton.mp hq'))
    have hfrq : ∀ p ∈ fixedNames.map (fun nm => root ++ [nm]), ¬ p <+: q := by
      intro p hp
      obtain ⟨nm, hnm, rfl⟩ := List.mem_map.mp hp
      exact hpp_not_under q hqlen nm hnm
    rw [removeAllLoop_find_frame fs1 _ q hfrq]
    exact hnb1 q hq
  have hstatL : statFS (removeAllLoop fs1 (fixedNames.map fun nm => root ++ [nm])).1
      (root ++ ["go.mod"]) = .found (Node.file (goModContent m)) :=
    statFS_eq_found _ _ _ hLval hLnb
  rw [deleteMVC_found_file root fs1 (goModContent m) hstatL hLval]
  refine ⟨rfl, ?_⟩
  intro q
  by_cases hq1 : ∀ nm ∈ fixedNames, ¬ (root ++ [nm]) <+: q
  · by_cases hq2 : q = root ++ ["go.mod"]
    · subst hq2
      rw [fsFind_filter_self, hnomod]
    · rw [fsFind_filter_ne _ _ q hq2]
      have hfrq : ∀ p ∈ fixedNames.map (fun nm => root ++ [nm]), ¬ p <+: q := by
        intro p hp
        obtain ⟨nm, hnm, rfl⟩ := List.mem_map.mp hp
        exact hq1 nm hnm
      rw [removeAllLoop_find_frame fs1 _ q hfrq]
      exact hstable q hq2 hq1
  · push_neg at hq1
    obtain ⟨nm, hnm, hpre⟩ := hq1
    have hLnone : fsFind (removeAllLoop fs1 (fixedNames.map fun nm => root ++ [nm])).1 q
        = none :=
      removeAllLoop_clears fs1 _ q ⟨root ++ [nm], List.mem_map.mpr ⟨nm, hnm, rfl⟩, hpre⟩
    have hfilter : fsFind ((removeAllLoop fs1 (fixedNames.map fun nm => root ++ [nm])).1.filter
        fun e => !(e.1 == root ++ ["go.mod"])) q = none :=
      fsFind_filter_none _ (fun x => !(x == root ++ ["go.mod"])) q hLnone
    rw [hfilter, fsFind_eq_none fs q
      (fun e he hc => hempty e he nm hnm (by rw [hc]; exact hpre))]

/-- Witness for the amended C1: a root holding only an unrelated user file
is restored exactly by provision followed by decommission. -/
theorem c1_round_trip_amended_witness :
    (deleteMVC ["r"] (setupMVC (goModInitModel ["r"] "example.com/u/p1") ["r"]
        "example.com/u/p1" [(["r"], Node.dir ⟨true, true⟩),
          (["r", "data.txt"], Node.file "user data")]).1).2 = none ∧
    fsFind (deleteMVC ["r"] (setupMVC (goModInitModel ["r"] "example.com/u/p1") ["r"]
        "example.com/u/p1" [(["r"], Node.dir ⟨true, true⟩),
          (["r", "data.txt"], Node.file "user data")]).1).1 ["r", "data.txt"]
      = fsFind [(["r"], Node.dir ⟨true, true⟩), (["r", "data.txt"], Node.file "user data")]
          ["r", "data.txt"] ∧
    fsFind (deleteMVC ["r"] (setupMVC (goModInitModel ["r"] "example.com/u/p1") ["r"]
        "example.com/u/p1" [(["r"], Node.dir ⟨true, true⟩),
          (["r", "data.txt"], Node.file "user data")]).1).1 ["r", "cmd", "api", "main.go"]
      = fsFind [(["r"], Node.dir ⟨true, true⟩), (["r", "data.txt"], Node.file "user data")]
          ["r", "cmd", "api", "main.go"] := by
  have h := c1_round_trip_amended ["r"] "example.com/u/p1"
    [(["r"], Node.dir ⟨true, true⟩), (["r", "data.txt"], Node.file "user data")]
    (by decide) (by decide) (by decide) (by decide) (by decide)
  exact ⟨h.1, h.2 ["r", "data.txt"], h.2 ["r", "cmd", "api", "main.go"]⟩

end Gomvc
